import Mathlib

/-
Verification development for the bitset library (jyguzman/bitset).

The repository keeps two revisions of the same library in bitset.go.  The
primary revision (the one the current test file compiles against) stores a
BitSet as a logical size together with a word array named bitArray of
ceil(size/64) 64-bit words in reversed order: logical bit n lives in word
(len - n/64 - 1) at offset (n % 64).  The secondary revision stores a field
named words with 1 + floor(size/64) words in natural order: bit n lives in
word n/64 at offset n % 64.  Both revisions are embedded below, as
namespace V1 (primary, bitArray) and namespace V2 (secondary, words).

Machine integers are modelled as Nat: every word of a bitset is a value
below 2^64 and the Go operators are translated as follows: x | y is
Nat.lor, x & y is Nat.land, x ^ y is Nat.xor, ^x (complement) is
Nat.xor x (2^64 - 1), and 1 << k is 1 <<< k (the shift amount is always
n % 64 < 64, so no truncation occurs).  Go int indices are modelled as Int
at the public API boundary, where negative values are rejected, and as Nat
internally, after validation.
-/

/-- The uint64 modulus. -/
def w64 : Nat := 2 ^ 64

/-- Complement of a uint64 word: the Go expression with a caret before x. -/
def compl64 (w : Nat) : Nat := Nat.xor w (w64 - 1)

def onesCountAux : Nat → Nat → Nat
  | 0, _ => 0
  | fuel + 1, w => w % 2 + onesCountAux fuel (w / 2)

/-- bits.OnesCount64: population count of a uint64 word. -/
def onesCount64 (w : Nat) : Nat := onesCountAux 64 w

/-- int(math.Ceil(float64(numBits) / 64.0)) for a natural number. -/
def ceilDiv64 (n : Nat) : Nat := (n + 63) / 64

/-- Error value: both error paths of checkValidBit report an index outside
the valid range 0 <= n < size. -/
inductive GoError where
  | outOfRange
deriving DecidableEq, Repr

def binCore : Nat → Nat → List Char
  | 0, _ => []
  | fuel + 1, n =>
      if n = 0 then []
      else binCore fuel (n / 2) ++ [if n % 2 = 1 then '1' else '0']

/-- fmt.Sprintf with verb b applied to a uint64 word: minimal binary
digits, most significant first, and the single digit 0 for the zero word. -/
def fmtB (w : Nat) : List Char := if w = 0 then ['0'] else binCore 64 w

namespace V1

/-- Primary revision: size is the number of logical bits, bitArray the
packed words in reversed order. -/
structure BitSet where
  size : Nat
  bitArray : List Nat
deriving DecidableEq, Repr

/-- NewBitSet allocates ceil(numBits/64) zero words. -/
def NewBitSet (numBits : Nat) : BitSet :=
  { size := numBits, bitArray := List.replicate (ceilDiv64 numBits) 0 }

/-- getWordAndPos: (len(bitArray) - n/64 - 1, n % 64). -/
def getWordAndPos (bs : BitSet) (n : Nat) : Nat × Nat :=
  (bs.bitArray.length - n / 64 - 1, n % 64)

/-- The unexported set method.  Note the source uses a xor assignment
here, so it toggles the bit instead of setting it. -/
def setI (bs : BitSet) (n : Nat) : BitSet :=
  let wp := getWordAndPos bs n
  { bs with bitArray :=
      bs.bitArray.set wp.1 (Nat.xor (bs.bitArray.getD wp.1 0) (1 <<< wp.2)) }

/-- The unexported clear method: word and-assigned with the complement of
the single-bit mask. -/
def clearI (bs : BitSet) (n : Nat) : BitSet :=
  let wp := getWordAndPos bs n
  { bs with bitArray :=
      bs.bitArray.set wp.1 (Nat.land (bs.bitArray.getD wp.1 0) (compl64 (1 <<< wp.2))) }

/-- The unexported flip method.  Note the source uses an or assignment
here, so it sets the bit instead of flipping it. -/
def flipI (bs : BitSet) (n : Nat) : BitSet :=
  let wp := getWordAndPos bs n
  { bs with bitArray :=
      bs.bitArray.set wp.1 (Nat.lor (bs.bitArray.getD wp.1 0) (1 <<< wp.2)) }

/-- The unexported test method: word and single-bit mask, compared >= 1. -/
def testI (bs : BitSet) (n : Nat) : Bool :=
  let wp := getWordAndPos bs n
  Nat.ble 1 (Nat.land (bs.bitArray.getD wp.1 0) (1 <<< wp.2))

/-- mask retains the first n bits of a word: word & ((1 << n) - 1). -/
def mask (word : Nat) (n : Nat) : Nat := Nat.land word ((1 <<< n) - 1)

/-- checkValidBit rejects n < 0 and n >= size, in that order. -/
def checkValidBit (bs : BitSet) (n : Int) : Option GoError :=
  if n < 0 then some .outOfRange
  else if (bs.size : Int) ≤ n then some .outOfRange
  else none

/-- Exported Set: validate, then call the unexported set. -/
def Set (bs : BitSet) (n : Int) : BitSet × Option GoError :=
  match checkValidBit bs n with
  | some e => (bs, some e)
  | none => (setI bs n.toNat, none)

/-- Exported Clear. -/
def Clear (bs : BitSet) (n : Int) : BitSet × Option GoError :=
  match checkValidBit bs n with
  | some e => (bs, some e)
  | none => (clearI bs n.toNat, none)

/-- Exported Flip. -/
def Flip (bs : BitSet) (n : Int) : BitSet × Option GoError :=
  match checkValidBit bs n with
  | some e => (bs, some e)
  | none => (flipI bs n.toNat, none)

/-- Exported Test: (false, err) on an invalid index. -/
def Test (bs : BitSet) (n : Int) : Bool × Option GoError :=
  match checkValidBit bs n with
  | some e => (false, some e)
  | none => (testI bs n.toNat, none)

/-- Rollback loop of SetBits: for j, ob in originalBits, clear indices[j]
back to 0 when ob recorded an unset bit. -/
def rollbackSet (indices : List Int) : BitSet → List Bool → Nat → BitSet
  | bs, [], _ => bs
  | bs, ob :: rest, j =>
      rollbackSet indices
        (if ob = false then clearI bs (indices.getD j 0).toNat else bs) rest (j + 1)

def setBitsAux (indices : List Int) : BitSet → List Int → List Bool → BitSet × Option GoError
  | bs, [], _ => (bs, none)
  | bs, idx :: rest, orig =>
      match Test bs idx with
      | (_, some e) => (rollbackSet indices bs orig 0, some e)
      | (wasSet, none) => setBitsAux indices (setI bs idx.toNat) rest (orig ++ [wasSet])

/-- SetBits: record each prior bit value, set each index in turn, and on
the first invalid index roll back the recorded zeros and return the error. -/
def SetBits (bs : BitSet) (indices : List Int) : BitSet × Option GoError :=
  setBitsAux indices bs indices []

/-- Rollback loop of ClearBits: set indices[j] back to 1 when ob recorded
a set bit. -/
def rollbackClear (indices : List Int) : BitSet → List Bool → Nat → BitSet
  | bs, [], _ => bs
  | bs, ob :: rest, j =>
      rollbackClear indices
        (if ob = true then setI bs (indices.getD j 0).toNat else bs) rest (j + 1)

def clearBitsAux (indices : List Int) : BitSet → List Int → List Bool → BitSet × Option GoError
  | bs, [], _ => (bs, none)
  | bs, idx :: rest, orig =>
      match Test bs idx with
      | (_, some e) => (rollbackClear indices bs orig 0, some e)
      | (wasSet, none) => clearBitsAux indices (clearI bs idx.toNat) rest (orig ++ [wasSet])

/-- ClearBits, with the symmetric rollback. -/
def ClearBits (bs : BitSet) (indices : List Int) : BitSet × Option GoError :=
  clearBitsAux indices bs indices []

/-- Rollback loop of FlipBits: walk the whole input list from the start,
re-flipping every index until the failing value is reached. -/
def flipRollback (idxBad : Int) : BitSet → List Int → BitSet
  | bs, [] => bs
  | bs, i :: rest =>
      if i = idxBad then bs else flipRollback idxBad (flipI bs i.toNat) rest

def flipBitsAux (bits : List Int) : BitSet → List Int → BitSet × Option GoError
  | bs, [] => (bs, none)
  | bs, idx :: rest =>
      match Flip bs idx with
      | (bs2, none) => flipBitsAux bits bs2 rest
      | (bs2, some e) => (flipRollback idx bs2 bits, some e)
  -- The Go loop would continue iterating after an inner rollback that does
  -- not meet the failing value; that path is unreachable because the
  -- failing value is an element of the list being walked.

/-- FlipBits: flip each index through the validated Flip; on error walk
the list again, re-flipping up to the failing value. -/
def FlipBits (bs : BitSet) (bits : List Int) : BitSet × Option GoError :=
  flipBitsAux bits bs bits

/-- ClearAll replaces the word array with ceil(size/64) zero words. -/
def ClearAll (bs : BitSet) : BitSet :=
  { bs with bitArray := List.replicate (ceilDiv64 bs.size) 0 }

/-- CountSetBits: sum of per-word population counts over every word. -/
def CountSetBits (bs : BitSet) : Nat :=
  bs.bitArray.foldl (fun count word => count + onesCount64 word) 0

/-- In-place Not: complement every word, with no tail masking. -/
def Not (bs : BitSet) : BitSet :=
  { bs with bitArray := bs.bitArray.map compl64 }

/-- Free-function Not: a fresh bitset with every word complemented, with
no tail masking. -/
def NotFree (bs : BitSet) : BitSet :=
  { size := bs.size, bitArray := bs.bitArray.map compl64 }

def orWord (recvBitsLeft otherBitsLeft w o : Nat) : Nat :=
  if recvBitsLeft < 64 ∨ otherBitsLeft < 64 then
    mask (Nat.lor w o) (min recvBitsLeft otherBitsLeft)
  else Nat.lor w o

def orWalk : Nat → Nat → List Nat → List Nat → List Nat
  | _, _, [], _ => []
  | _, _, ws, [] => ws
  | r, ob, w :: ws, o :: os => orWord r ob w o :: orWalk (r - 64) (ob - 64) ws os

/-- In-place Or: the loop walks both arrays from the highest index (the
least significant end in the reversed layout) while both remain in range,
masking a combined word by min(recvBitsLeft, otherBitsLeft) whenever
either count drops below 64. -/
def Or (bs other : BitSet) : BitSet :=
  { bs with bitArray :=
      (orWalk bs.size other.size bs.bitArray.reverse other.bitArray.reverse).reverse }

def andWord (recvBitsLeft otherBitsLeft w o : Nat) : Nat :=
  if recvBitsLeft < 64 ∨ otherBitsLeft < 64 then
    mask (Nat.land w o) (min recvBitsLeft otherBitsLeft)
  else Nat.land w o

def andWalk : Nat → Nat → List Nat → List Nat → List Nat
  | _, _, [], _ => []
  | _, _, ws, [] => ws
  | r, ob, w :: ws, o :: os => andWord r ob w o :: andWalk (r - 64) (ob - 64) ws os

/-- In-place And, same walk as the in-place Or. -/
def And (bs other : BitSet) : BitSet :=
  { bs with bitArray :=
      (andWalk bs.size other.size bs.bitArray.reverse other.bitArray.reverse).reverse }

/-- Free-function Or: allocate ceil(larger.size/64) words and write, for
each index below the word count of the smaller operand, the or of the two
word arrays at that same index; remaining words stay zero. -/
def OrFree (bs1 bs2 : BitSet) : BitSet :=
  let smaller := if bs2.size < bs1.size then bs2 else bs1
  let larger := if bs2.size < bs1.size then bs1 else bs2
  { size := larger.size,
    bitArray := (List.range (ceilDiv64 larger.size)).map fun i =>
      if i < smaller.bitArray.length then
        Nat.lor (smaller.bitArray.getD i 0) (larger.bitArray.getD i 0)
      else 0 }

def renderWords : List Nat → List Char
  | [] => []
  | [w] => fmtB w
  | w :: ws => (if w = 0 then [] else fmtB w) ++ renderWords ws

/-- The String method: words in array order (most significant word first
in the reversed layout), zero words skipped unless in the last position,
each rendered with the unpadded binary verb. -/
def toString (bs : BitSet) : String := String.mk (renderWords bs.bitArray)

end V1

namespace V2

/-- Secondary revision: size is the number of logical bits, words the
packed words in natural order. -/
structure BitSet where
  size : Nat
  words : List Nat
deriving DecidableEq, Repr

/-- NewBitSet allocates 1 + floor(numBits/64) zero words. -/
def NewBitSet (numBits : Nat) : BitSet :=
  { size := numBits, words := List.replicate (1 + numBits / 64) 0 }

/-- getWordAndPos: (n / 64, n % 64). -/
def getWordAndPos (n : Nat) : Nat × Nat := (n / 64, n % 64)

/-- The unexported set method: word or-assigned with the single-bit mask. -/
def setI (bs : BitSet) (n : Nat) : BitSet :=
  let wp := getWordAndPos n
  { bs with words :=
      bs.words.set wp.1 (Nat.lor (bs.words.getD wp.1 0) (1 <<< wp.2)) }

/-- The unexported clear method. -/
def clearI (bs : BitSet) (n : Nat) : BitSet :=
  let wp := getWordAndPos n
  { bs with words :=
      bs.words.set wp.1 (Nat.land (bs.words.getD wp.1 0) (compl64 (1 <<< wp.2))) }

/-- The unexported flip method: word xor-assigned with the single-bit mask. -/
def flipI (bs : BitSet) (n : Nat) : BitSet :=
  let wp := getWordAndPos n
  { bs with words :=
      bs.words.set wp.1 (Nat.xor (bs.words.getD wp.1 0) (1 <<< wp.2)) }

/-- The unexported test method. -/
def testI (bs : BitSet) (n : Nat) : Bool :=
  let wp := getWordAndPos n
  Nat.ble 1 (Nat.land (bs.words.getD wp.1 0) (1 <<< wp.2))

/-- mask retains the first n bits of a word; when n = 0 the original word
is returned unchanged. -/
def mask (word : Nat) (n : Nat) : Nat :=
  if n = 0 then word else Nat.land word ((1 <<< n) - 1)

/-- checkValidBit rejects n < 0 and n >= size, in that order. -/
def checkValidBit (bs : BitSet) (n : Int) : Option GoError :=
  if n < 0 then some .outOfRange
  else if (bs.size : Int) ≤ n then some .outOfRange
  else none

/-- Exported Set. -/
def Set (bs : BitSet) (n : Int) : BitSet × Option GoError :=
  match checkValidBit bs n with
  | some e => (bs, some e)
  | none => (setI bs n.toNat, none)

/-- Exported Clear. -/
def Clear (bs : BitSet) (n : Int) : BitSet × Option GoError :=
  match checkValidBit bs n with
  | some e => (bs, some e)
  | none => (clearI bs n.toNat, none)

/-- Exported Flip. -/
def Flip (bs : BitSet) (n : Int) : BitSet × Option GoError :=
  match checkValidBit bs n with
  | some e => (bs, some e)
  | none => (flipI bs n.toNat, none)

/-- Exported Test. -/
def Test (bs : BitSet) (n : Int) : Bool × Option GoError :=
  match checkValidBit bs n with
  | some e => (false, some e)
  | none => (testI bs n.toNat, none)

/-- CountSetBits: sum of per-word population counts over every word. -/
def CountSetBits (bs : BitSet) : Nat :=
  bs.words.foldl (fun count word => count + onesCount64 word) 0

def orWalk : Nat → List Nat → List Nat → List Nat
  | _, [], _ => []
  | _, ws, [] => ws
  | bitsLeft, w :: ws, o :: os =>
      mask (Nat.lor w o) (bitsLeft % 64) :: orWalk (bitsLeft - 64) ws os

/-- In-place Or: walk both arrays from index 0 while both remain in
range, masking every combined word by bitsLeft % 64, with bitsLeft
starting at the receiver size and decreasing by 64 per word. -/
def Or (bs other : BitSet) : BitSet :=
  { bs with words := orWalk bs.size bs.words other.words }

def andWalk : Nat → List Nat → List Nat → List Nat
  | _, [], _ => []
  | _, ws, [] => ws
  | bitsLeft, w :: ws, o :: os =>
      mask (Nat.land w o) (bitsLeft % 64) :: andWalk (bitsLeft - 64) ws os

/-- In-place And, same walk as the in-place Or. -/
def And (bs other : BitSet) : BitSet :=
  { bs with words := andWalk bs.size bs.words other.words }

def xorWalk : Nat → List Nat → List Nat → List Nat
  | _, [], _ => []
  | _, ws, [] => ws
  | bitsLeft, w :: ws, o :: os =>
      mask (Nat.xor w o) (bitsLeft % 64) :: xorWalk (bitsLeft - 64) ws os

/-- In-place Xor, same walk as the in-place Or. -/
def Xor (bs other : BitSet) : BitSet :=
  { bs with words := xorWalk bs.size bs.words other.words }

def notWalk : Nat → List Nat → List Nat
  | _, [] => []
  | bitsLeft, w :: ws => mask (compl64 w) (bitsLeft % 64) :: notWalk (bitsLeft - 64) ws

/-- In-place Not: complement every word and mask it by bitsLeft % 64. -/
def Not (bs : BitSet) : BitSet :=
  { bs with words := notWalk bs.size bs.words }

/-- Free-function Not: a fresh bitset with every word complemented, with
no tail masking. -/
def NotFree (bs : BitSet) : BitSet :=
  { size := bs.size, words := bs.words.map compl64 }

/-- Free-function Or: allocate len(larger.words) words and write, for each
index below the word count of the smaller operand, the or of the two word
arrays at that same index; remaining words stay zero. -/
def OrFree (bs1 bs2 : BitSet) : BitSet :=
  let smaller := if bs2.size < bs1.size then bs2 else bs1
  let larger := if bs2.size < bs1.size then bs1 else bs2
  { size := larger.size,
    words := (List.range larger.words.length).map fun i =>
      if i < smaller.words.length then
        Nat.lor (smaller.words.getD i 0) (larger.words.getD i 0)
      else 0 }

/-- ClearAll replaces the word array with len(words) zero words, keeping
the current array length. -/
def ClearAll (bs : BitSet) : BitSet :=
  { bs with words := List.replicate bs.words.length 0 }

/-- Rollback loop of SetBits: for j, ob in originalBits, clear indices[j]
back to 0 when ob recorded an unset bit. -/
def rollbackSet (indices : List Int) : BitSet → List Bool → Nat → BitSet
  | bs, [], _ => bs
  | bs, ob :: rest, j =>
      rollbackSet indices
        (if ob = false then clearI bs (indices.getD j 0).toNat else bs) rest (j + 1)

def setBitsAux (indices : List Int) : BitSet → List Int → List Bool → BitSet × Option GoError
  | bs, [], _ => (bs, none)
  | bs, idx :: rest, orig =>
      match Test bs idx with
      | (_, some e) => (rollbackSet indices bs orig 0, some e)
      | (wasSet, none) => setBitsAux indices (setI bs idx.toNat) rest (orig ++ [wasSet])

/-- SetBits: record each prior bit value, set each index in turn, and on
the first invalid index roll back the recorded zeros and return the error. -/
def SetBits (bs : BitSet) (indices : List Int) : BitSet × Option GoError :=
  setBitsAux indices bs indices []

/-- Rollback loop of ClearBits: set indices[j] back to 1 when ob recorded
a set bit. -/
def rollbackClear (indices : List Int) : BitSet → List Bool → Nat → BitSet
  | bs, [], _ => bs
  | bs, ob :: rest, j =>
      rollbackClear indices
        (if ob = true then setI bs (indices.getD j 0).toNat else bs) rest (j + 1)

def clearBitsAux (indices : List Int) : BitSet → List Int → List Bool → BitSet × Option GoError
  | bs, [], _ => (bs, none)
  | bs, idx :: rest, orig =>
      match Test bs idx with
      | (_, some e) => (rollbackClear indices bs orig 0, some e)
      | (wasSet, none) => clearBitsAux indices (clearI bs idx.toNat) rest (orig ++ [wasSet])

/-- ClearBits, with the symmetric rollback. -/
def ClearBits (bs : BitSet) (indices : List Int) : BitSet × Option GoError :=
  clearBitsAux indices bs indices []

/-- Rollback loop of FlipBits: walk the whole input list from the start,
re-flipping every index until the failing value is reached. -/
def flipRollback (idxBad : Int) : BitSet → List Int → BitSet
  | bs, [] => bs
  | bs, i :: rest =>
      if i = idxBad then bs else flipRollback idxBad (flipI bs i.toNat) rest

def flipBitsAux (bits : List Int) : BitSet → List Int → BitSet × Option GoError
  | bs, [] => (bs, none)
  | bs, idx :: rest =>
      match Flip bs idx with
      | (bs2, none) => flipBitsAux bits bs2 rest
      | (bs2, some e) => (flipRollback idx bs2 bits, some e)

/-- FlipBits: flip each index through the validated Flip; on error walk
the list again, re-flipping up to the failing value. -/
def FlipBits (bs : BitSet) (bits : List Int) : BitSet × Option GoError :=
  flipBitsAux bits bs bits

end V2

/-
Helper lemmas shared by the claim theorems below.
-/

lemma compl64_compl64 (w : Nat) : compl64 (compl64 w) = w := by
  show w ^^^ (w64 - 1) ^^^ (w64 - 1) = w
  rw [Nat.xor_assoc, Nat.xor_self, Nat.xor_zero]

lemma v1_checkValidBit_oob (a : V1.BitSet) (n : Int)
    (h : n < 0 ∨ (a.size : Int) ≤ n) :
    V1.checkValidBit a n = some .outOfRange := by
  unfold V1.checkValidBit
  rcases h with h | h
  · rw [if_pos h]
  · by_cases h0 : n < 0
    · rw [if_pos h0]
    · rw [if_neg h0, if_pos h]

lemma v2_checkValidBit_oob (b : V2.BitSet) (n : Int)
    (h : n < 0 ∨ (b.size : Int) ≤ n) :
    V2.checkValidBit b n = some .outOfRange := by
  unfold V2.checkValidBit
  rcases h with h | h
  · rw [if_pos h]
  · by_cases h0 : n < 0
    · rw [if_pos h0]
    · rw [if_neg h0, if_pos h]

lemma V1.Set_dims (a : V1.BitSet) (n : Int) :
    (V1.Set a n).1.size = a.size ∧
    (V1.Set a n).1.bitArray.length = a.bitArray.length := by
  unfold V1.Set
  cases V1.checkValidBit a n <;> simp [V1.setI]

lemma V1.Clear_dims (a : V1.BitSet) (n : Int) :
    (V1.Clear a n).1.size = a.size ∧
    (V1.Clear a n).1.bitArray.length = a.bitArray.length := by
  unfold V1.Clear
  cases V1.checkValidBit a n <;> simp [V1.clearI]

lemma V1.Flip_dims (a : V1.BitSet) (n : Int) :
    (V1.Flip a n).1.size = a.size ∧
    (V1.Flip a n).1.bitArray.length = a.bitArray.length := by
  unfold V1.Flip
  cases V1.checkValidBit a n <;> simp [V1.flipI]

lemma V1.rollbackSet_dims (ids : List Int) :
    ∀ (obs : List Bool) (bs : V1.BitSet) (j : Nat),
      (V1.rollbackSet ids bs obs j).size = bs.size ∧
      (V1.rollbackSet ids bs obs j).bitArray.length = bs.bitArray.length
  | [], bs, j => ⟨rfl, rfl⟩
  | ob :: rest, bs, j => by
      have ih := V1.rollbackSet_dims ids rest
        (if ob = false then V1.clearI bs ((ids.getD j 0).toNat) else bs) (j + 1)
      unfold V1.rollbackSet
      refine ⟨ih.1.trans ?_, ih.2.trans ?_⟩ <;> split <;> simp [V1.clearI]

lemma V1.rollbackClear_dims (ids : List Int) :
    ∀ (obs : List Bool) (bs : V1.BitSet) (j : Nat),
      (V1.rollbackClear ids bs obs j).size = bs.size ∧
      (V1.rollbackClear ids bs obs j).bitArray.length = bs.bitArray.length
  | [], bs, j => ⟨rfl, rfl⟩
  | ob :: rest, bs, j => by
      have ih := V1.rollbackClear_dims ids rest
        (if ob = true then V1.setI bs ((ids.getD j 0).toNat) else bs) (j + 1)
      unfold V1.rollbackClear
      refine ⟨ih.1.trans ?_, ih.2.trans ?_⟩ <;> split <;> simp [V1.setI]

lemma V1.setBitsAux_dims (ids : List Int) :
    ∀ (rem : List Int) (bs : V1.BitSet) (orig : List Bool),
      (V1.setBitsAux ids bs rem orig).1.size = bs.size ∧
      (V1.setBitsAux ids bs rem orig).1.bitArray.length = bs.bitArray.length
  | [], bs, orig => ⟨rfl, rfl⟩
  | idx :: rest, bs, orig => by
      have hd := V1.setBitsAux_dims ids rest (V1.setI bs idx.toNat)
      unfold V1.setBitsAux
      rcases hT : V1.Test bs idx with ⟨wasSet, oe⟩
      cases oe with
      | some e =>
          simpa using V1.rollbackSet_dims ids orig bs 0
      | none =>
          have ih := hd (orig ++ [wasSet])
          refine ⟨ih.1.trans ?_, ih.2.trans ?_⟩ <;> simp [V1.setI]

lemma V1.clearBitsAux_dims (ids : List Int) :
    ∀ (rem : List Int) (bs : V1.BitSet) (orig : List Bool),
      (V1.clearBitsAux ids bs rem orig).1.size = bs.size ∧
      (V1.clearBitsAux ids bs rem orig).1.bitArray.length = bs.bitArray.length
  | [], bs, orig => ⟨rfl, rfl⟩
  | idx :: rest, bs, orig => by
      have hd := V1.clearBitsAux_dims ids rest (V1.clearI bs idx.toNat)
      unfold V1.clearBitsAux
      rcases hT : V1.Test bs idx with ⟨wasSet, oe⟩
      cases oe with
      | some e =>
          simpa using V1.rollbackClear_dims ids orig bs 0
      | none =>
          have ih := hd (orig ++ [wasSet])
          refine ⟨ih.1.trans ?_, ih.2.trans ?_⟩ <;> simp [V1.clearI]

lemma V1.flipRollback_dims (idxBad : Int) :
    ∀ (lst : List Int) (bs : V1.BitSet),
      (V1.flipRollback idxBad bs lst).size = bs.size ∧
      (V1.flipRollback idxBad bs lst).bitArray.length = bs.bitArray.length
  | [], bs => ⟨rfl, rfl⟩
  | i :: rest, bs => by
      have ih := V1.flipRollback_dims idxBad rest (V1.flipI bs i.toNat)
      unfold V1.flipRollback
      split
      · exact ⟨rfl, rfl⟩
      · refine ⟨ih.1.trans ?_, ih.2.trans ?_⟩ <;> simp [V1.flipI]

lemma V1.flipBitsAux_dims (bits : List Int) :
    ∀ (rem : List Int) (bs : V1.BitSet),
      (V1.flipBitsAux bits bs rem).1.size = bs.size ∧
      (V1.flipBitsAux bits bs rem).1.bitArray.length = bs.bitArray.length
  | [], bs => ⟨rfl, rfl⟩
  | idx :: rest, bs => by
      unfold V1.flipBitsAux
      rcases hF : V1.Flip bs idx with ⟨bs2, oe⟩
      have hdims : bs2.size = bs.size ∧ bs2.bitArray.length = bs.bitArray.length := by
        have := V1.Flip_dims bs idx
        rw [hF] at this
        exact this
      cases oe with
      | some e =>
          have hr := V1.flipRollback_dims idx bits bs2
          exact ⟨hr.1.trans hdims.1, hr.2.trans hdims.2⟩
      | none =>
          have ih := V1.flipBitsAux_dims bits rest bs2
          exact ⟨ih.1.trans hdims.1, ih.2.trans hdims.2⟩

lemma v1_orWalk_length :
    ∀ (r ob : Nat) (ws os : List Nat), (V1.orWalk r ob ws os).length = ws.length
  | _, _, [], _ => by simp [V1.orWalk]
  | _, _, _ :: _, [] => by simp [V1.orWalk]
  | r, ob, w :: ws, o :: os => by
      unfold V1.orWalk
      simp [v1_orWalk_length (r - 64) (ob - 64) ws os]

lemma v1_andWalk_length :
    ∀ (r ob : Nat) (ws os : List Nat), (V1.andWalk r ob ws os).length = ws.length
  | _, _, [], _ => by simp [V1.andWalk]
  | _, _, _ :: _, [] => by simp [V1.andWalk]
  | r, ob, w :: ws, o :: os => by
      unfold V1.andWalk
      simp [v1_andWalk_length (r - 64) (ob - 64) ws os]

lemma v2_orWalk_length :
    ∀ (r : Nat) (ws os : List Nat), (V2.orWalk r ws os).length = ws.length
  | _, [], _ => by simp [V2.orWalk]
  | _, _ :: _, [] => by simp [V2.orWalk]
  | r, w :: ws, o :: os => by
      unfold V2.orWalk
      simp [v2_orWalk_length (r - 64) ws os]

lemma v2_andWalk_length :
    ∀ (r : Nat) (ws os : List Nat), (V2.andWalk r ws os).length = ws.length
  | _, [], _ => by simp [V2.andWalk]
  | _, _ :: _, [] => by simp [V2.andWalk]
  | r, w :: ws, o :: os => by
      unfold V2.andWalk
      simp [v2_andWalk_length (r - 64) ws os]

lemma v2_xorWalk_length :
    ∀ (r : Nat) (ws os : List Nat), (V2.xorWalk r ws os).length = ws.length
  | _, [], _ => by simp [V2.xorWalk]
  | _, _ :: _, [] => by simp [V2.xorWalk]
  | r, w :: ws, o :: os => by
      unfold V2.xorWalk
      simp [v2_xorWalk_length (r - 64) ws os]

lemma v2_notWalk_length :
    ∀ (r : Nat) (ws : List Nat), (V2.notWalk r ws).length = ws.length
  | _, [] => rfl
  | r, w :: ws => by
      unfold V2.notWalk
      simp [v2_notWalk_length (r - 64) ws]

lemma v2_Set_dims (b : V2.BitSet) (n : Int) :
    (V2.Set b n).1.size = b.size ∧
    (V2.Set b n).1.words.length = b.words.length := by
  unfold V2.Set
  cases V2.checkValidBit b n <;> simp [V2.setI]

lemma v2_Clear_dims (b : V2.BitSet) (n : Int) :
    (V2.Clear b n).1.size = b.size ∧
    (V2.Clear b n).1.words.length = b.words.length := by
  unfold V2.Clear
  cases V2.checkValidBit b n <;> simp [V2.clearI]

lemma v2_Flip_dims (b : V2.BitSet) (n : Int) :
    (V2.Flip b n).1.size = b.size ∧
    (V2.Flip b n).1.words.length = b.words.length := by
  unfold V2.Flip
  cases V2.checkValidBit b n <;> simp [V2.flipI]

lemma v2_rollbackSet_dims (ids : List Int) :
    ∀ (obs : List Bool) (bs : V2.BitSet) (j : Nat),
      (V2.rollbackSet ids bs obs j).size = bs.size ∧
      (V2.rollbackSet ids bs obs j).words.length = bs.words.length
  | [], bs, j => ⟨rfl, rfl⟩
  | ob :: rest, bs, j => by
      have ih := v2_rollbackSet_dims ids rest
        (if ob = false then V2.clearI bs ((ids.getD j 0).toNat) else bs) (j + 1)
      unfold V2.rollbackSet
      refine ⟨ih.1.trans ?_, ih.2.trans ?_⟩ <;> split <;> simp [V2.clearI]

lemma v2_rollbackClear_dims (ids : List Int) :
    ∀ (obs : List Bool) (bs : V2.BitSet) (j : Nat),
      (V2.rollbackClear ids bs obs j).size = bs.size ∧
      (V2.rollbackClear ids bs obs j).words.length = bs.words.length
  | [], bs, j => ⟨rfl, rfl⟩
  | ob :: rest, bs, j => by
      have ih := v2_rollbackClear_dims ids rest
        (if ob = true then V2.setI bs ((ids.getD j 0).toNat) else bs) (j + 1)
      unfold V2.rollbackClear
      refine ⟨ih.1.trans ?_, ih.2.trans ?_⟩ <;> split <;> simp [V2.setI]

lemma v2_setBitsAux_dims (ids : List Int) :
    ∀ (rem : List Int) (bs : V2.BitSet) (orig : List Bool),
      (V2.setBitsAux ids bs rem orig).1.size = bs.size ∧
      (V2.setBitsAux ids bs rem orig).1.words.length = bs.words.length
  | [], bs, orig => ⟨rfl, rfl⟩
  | idx :: rest, bs, orig => by
      have hd := v2_setBitsAux_dims ids rest (V2.setI bs idx.toNat)
      unfold V2.setBitsAux
      rcases hT : V2.Test bs idx with ⟨wasSet, oe⟩
      cases oe with
      | some e =>
          simpa using v2_rollbackSet_dims ids orig bs 0
      | none =>
          have ih := hd (orig ++ [wasSet])
          refine ⟨ih.1.trans ?_, ih.2.trans ?_⟩ <;> simp [V2.setI]

lemma v2_clearBitsAux_dims (ids : List Int) :
    ∀ (rem : List Int) (bs : V2.BitSet) (orig : List Bool),
      (V2.clearBitsAux ids bs rem orig).1.size = bs.size ∧
      (V2.clearBitsAux ids bs rem orig).1.words.length = bs.words.length
  | [], bs, orig => ⟨rfl, rfl⟩
  | idx :: rest, bs, orig => by
      have hd := v2_clearBitsAux_dims ids rest (V2.clearI bs idx.toNat)
      unfold V2.clearBitsAux
      rcases hT : V2.Test bs idx with ⟨wasSet, oe⟩
      cases oe with
      | some e =>
          simpa using v2_rollbackClear_dims ids orig bs 0
      | none =>
          have ih := hd (orig ++ [wasSet])
          refine ⟨ih.1.trans ?_, ih.2.trans ?_⟩ <;> simp [V2.clearI]

lemma v2_flipRollback_dims (idxBad : Int) :
    ∀ (lst : List Int) (bs : V2.BitSet),
      (V2.flipRollback idxBad bs lst).size = bs.size ∧
      (V2.flipRollback idxBad bs lst).words.length = bs.words.length
  | [], bs => ⟨rfl, rfl⟩
  | i :: rest, bs => by
      have ih := v2_flipRollback_dims idxBad rest (V2.flipI bs i.toNat)
      unfold V2.flipRollback
      split
      · exact ⟨rfl, rfl⟩
      · refine ⟨ih.1.trans ?_, ih.2.trans ?_⟩ <;> simp [V2.flipI]

lemma v2_flipBitsAux_dims (bits : List Int) :
    ∀ (rem : List Int) (bs : V2.BitSet),
      (V2.flipBitsAux bits bs rem).1.size = bs.size ∧
      (V2.flipBitsAux bits bs rem).1.words.length = bs.words.length
  | [], bs => ⟨rfl, rfl⟩
  | idx :: rest, bs => by
      unfold V2.flipBitsAux
      rcases hF : V2.Flip bs idx with ⟨bs2, oe⟩
      have hdims : bs2.size = bs.size ∧ bs2.words.length = bs.words.length := by
        have := v2_Flip_dims bs idx
        rw [hF] at this
        exact this
      cases oe with
      | some e =>
          have hr := v2_flipRollback_dims idx bits bs2
          exact ⟨hr.1.trans hdims.1, hr.2.trans hdims.2⟩
      | none =>
          have ih := v2_flipBitsAux_dims bits rest bs2
          exact ⟨ih.1.trans hdims.1, ih.2.trans hdims.2⟩

/-
Claim theorems.
-/

/-- Claim C1. The claim states that every bit position at index >= size
inside the last allocated word reads as 0 for every reachable bitset, in
particular after Not.  The code violates this: the in-place Not of the
primary revision and the free-function Not of both revisions complement
every word without reapplying the tail mask, so on a bitset of size 1 the
phantom position 1 of the single word reads as 1 afterwards.  This theorem
evaluates the code at that failing input. -/
theorem c1_not_leaves_phantom_bit_set :
    (V1.Not (V1.NewBitSet 1)).size = 1 ∧
    V1.testI (V1.Not (V1.NewBitSet 1)) 1 = true ∧
    (V2.NotFree (V2.NewBitSet 1)).size = 1 ∧
    V2.testI (V2.NotFree (V2.NewBitSet 1)) 1 = true := by decide

/-- Claim C2. The claim states that Or of two bitsets of different sizes
keeps, for every index between the two sizes, the bit of the larger
operand, and, for every index below the smaller size, the or of the two
bits.  The code violates this: the free-function Or of the primary
revision combines the two word arrays at equal array indices even though
the reversed layout aligns them from opposite ends, and never copies the
extra words of the larger operand.  Or of a bitset of size 1 with bit 0
set (word array [1], reachable by Set 0) and a zero bitset of size 128
yields word array [1, 0]: bit 0 of the result reads false (the claim
requires true) and bit 64 reads true (the claim requires false). -/
theorem c2_free_or_mismatched_sizes_wrong :
    (V1.Set (V1.NewBitSet 1) 0).1 = ⟨1, [1]⟩ ∧
    V1.OrFree ⟨1, [1]⟩ (V1.NewBitSet 128) = ⟨128, [1, 0]⟩ ∧
    V1.Test (V1.OrFree ⟨1, [1]⟩ (V1.NewBitSet 128)) 0 = (false, none) ∧
    V1.Test (V1.OrFree ⟨1, [1]⟩ (V1.NewBitSet 128)) 64 = (true, none) := by decide

/-- Claim C3. The claim states that Set n followed by Test n returns true
regardless of the prior bit value, and that Flip n negates the prior
value.  The code violates this: in the primary revision the unexported
set method uses a xor assignment (it toggles) and the unexported flip
method uses an or assignment (it sets).  Starting from a fresh bitset of
size 64, Set 0 followed by Set 0 leaves bit 0 clear, and Flip 0 on a set
bit leaves it set. -/
theorem c3_set_toggles_and_flip_sets :
    V1.Test (V1.Set (V1.Set (V1.NewBitSet 64) 0).1 0).1 0 = (false, none) ∧
    V1.Test (V1.Flip (V1.Set (V1.NewBitSet 64) 0).1 0).1 0 = (true, none) := by decide

/-- Claim C4 counterexample. The claim states that applying Not twice,
in-place or free-function, restores the original observable state for
every size.  The in-place Not of the secondary revision masks every word
by bitsLeft % 64, which truncates whole words for sizes above 64: on the
bitset of size 65 with bit 1 set (reachable by Set 1), a double in-place
Not changes the value of Test at index 1. -/
theorem c4_counterexample_double_not :
    (V2.Set (V2.NewBitSet 65) 1).1 = ⟨65, [2, 0]⟩ ∧
    V2.Test (V2.Not (V2.Not ⟨65, [2, 0]⟩)) 1 ≠ V2.Test ⟨65, [2, 0]⟩ 1 := by decide

/-- Claim C4 as amended. Double application of the free-function Not of
either revision, or of the unmasked in-place Not of the primary revision,
restores the original bitset exactly; the masked in-place Not of the
secondary revision is excluded, as the counterexample shows. -/
theorem c4_double_not_restores (a : V1.BitSet) (b : V2.BitSet) :
    V1.NotFree (V1.NotFree a) = a ∧
    V1.Not (V1.Not a) = a ∧
    V2.NotFree (V2.NotFree b) = b := by
  obtain ⟨sa, wa⟩ := a
  obtain ⟨sb, wb⟩ := b
  refine ⟨?_, ?_, ?_⟩ <;>
    simp [V1.NotFree, V1.Not, V2.NotFree, List.map_map, Function.comp_def,
      compl64_compl64]

/-- Claim C5. The claim states that SetBits, ClearBits and FlipBits are
atomic: an out-of-range index in the input makes the whole call fail with
no observable mutation.  The code violates this in the primary revision:
because the unexported set method toggles, SetBits [5, 99] on a bitset of
size 64 with bit 5 already set (word array [32], reachable by Set 5)
returns the error but leaves bit 5 cleared, and because the unexported
flip method sets, FlipBits [3, 99] on a fresh bitset of size 64 returns
the error but leaves bit 3 set. -/
theorem c5_bulk_ops_not_atomic :
    (V1.Set (V1.NewBitSet 64) 5).1 = ⟨64, [32]⟩ ∧
    V1.SetBits ⟨64, [32]⟩ [5, 99] = (⟨64, [0]⟩, some .outOfRange) ∧
    V1.FlipBits (V1.NewBitSet 64) [3, 99] = (⟨64, [8]⟩, some .outOfRange) := by decide

/-- Claim C6. The claim states that String renders the logical bits most
significant first, preserving the numeric value exactly, that an all-zero
bitset renders as at least one 0 digit, and that reading digit i from the
right reproduces exactly the indices that were Set.  The code violates
this in the primary revision: each word is rendered with the unpadded
binary verb, so a bitset of size 128 with only bit 64 set (reachable by
Set 64) renders as the two-digit string 10, which reads back as bit 1,
and a bitset of size 0 has no words at all and renders as the empty
string. -/
theorem c6_string_not_value_preserving :
    (V1.Set (V1.NewBitSet 128) 64).1 = ⟨128, [1, 0]⟩ ∧
    V1.toString ⟨128, [1, 0]⟩ = "10" ∧
    V1.toString (V1.NewBitSet 0) = "" := by decide

/-- Claim C7. The claim states that CountSetBits equals the number of
logical positions below size whose bit is set, for every reachable
bitset.  The code violates this: after the unmasked in-place Not of the
primary revision on a fresh bitset of size 1, the single word holds 64 set
bits, so CountSetBits returns 64 although only one logical position
exists. -/
theorem c7_count_includes_phantom_bits :
    (V1.Not (V1.NewBitSet 1)).size = 1 ∧
    V1.CountSetBits (V1.Not (V1.NewBitSet 1)) = 64 := by decide

/-- Claim C8. Every out-of-range index, negative or at least size, makes
Set, Clear, Flip and Test of either revision return the out-of-range
error before any mutation: the returned bitset is exactly the input
bitset, and Test additionally returns false. -/
theorem c8_out_of_range_rejected_without_mutation
    (a : V1.BitSet) (b : V2.BitSet) (n : Int)
    (ha : n < 0 ∨ (a.size : Int) ≤ n) (hb : n < 0 ∨ (b.size : Int) ≤ n) :
    V1.Set a n = (a, some .outOfRange) ∧
    V1.Clear a n = (a, some .outOfRange) ∧
    V1.Flip a n = (a, some .outOfRange) ∧
    V1.Test a n = (false, some .outOfRange) ∧
    V2.Set b n = (b, some .outOfRange) ∧
    V2.Clear b n = (b, some .outOfRange) ∧
    V2.Flip b n = (b, some .outOfRange) ∧
    V2.Test b n = (false, some .outOfRange) := by
  have h1 := v1_checkValidBit_oob a n ha
  have h2 := v2_checkValidBit_oob b n hb
  refine ⟨?_, ?_, ?_, ?_, ?_, ?_, ?_, ?_⟩ <;>
    simp [V1.Set, V1.Clear, V1.Flip, V1.Test,
      V2.Set, V2.Clear, V2.Flip, V2.Test, h1, h2]

/-- Witness for claim C8, at a bitset of size 64 and index 64. -/
theorem c8_witness :
    V1.Set (V1.NewBitSet 64) 64 = (V1.NewBitSet 64, some .outOfRange) ∧
    V1.Clear (V1.NewBitSet 64) 64 = (V1.NewBitSet 64, some .outOfRange) ∧
    V1.Flip (V1.NewBitSet 64) 64 = (V1.NewBitSet 64, some .outOfRange) ∧
    V1.Test (V1.NewBitSet 64) 64 = (false, some .outOfRange) ∧
    V2.Set (V2.NewBitSet 64) 64 = (V2.NewBitSet 64, some .outOfRange) ∧
    V2.Clear (V2.NewBitSet 64) 64 = (V2.NewBitSet 64, some .outOfRange) ∧
    V2.Flip (V2.NewBitSet 64) 64 = (V2.NewBitSet 64, some .outOfRange) ∧
    V2.Test (V2.NewBitSet 64) 64 = (false, some .outOfRange) :=
  c8_out_of_range_rejected_without_mutation
    (V1.NewBitSet 64) (V2.NewBitSet 64) 64 (by decide) (by decide)

/-- Claim C9 counterexample. The claim states that bits of the other
operand at indices at or beyond the receiver size have no effect on the
result of an in-place Or, And or Xor.  In the secondary revision a
receiver of size 64 owns two words, and the walk masks its slack word by
0, which the mask helper returns unchanged: an in-place Xor against a
size-128 operand with bit 64 set (reachable by Set 64) plants that bit in
the receiver slack word, changing its observable state and CountSetBits,
while the same Xor against the all-zero size-128 operand does not. -/
theorem c9_counterexample_high_bits_leak :
    (V2.Set (V2.NewBitSet 128) 64).1 = ⟨128, [0, 1, 0]⟩ ∧
    V2.Xor (V2.NewBitSet 64) ⟨128, [0, 1, 0]⟩ ≠
      V2.Xor (V2.NewBitSet 64) (V2.NewBitSet 128) ∧
    V2.CountSetBits (V2.Xor (V2.NewBitSet 64) ⟨128, [0, 1, 0]⟩) = 1 ∧
    V2.CountSetBits (V2.Xor (V2.NewBitSet 64) (V2.NewBitSet 128)) = 0 := by decide

/-- Claim C9 as amended. Every in-place operation of both revisions
among Set, Clear, Flip, SetBits, ClearBits, FlipBits, Not, Or, And and
Xor leaves the receiver size field and its word-array length unchanged,
so an in-place Or, And or Xor never grows the receiver even when the
other operand is larger; ClearAll leaves the size unchanged and, in the
primary revision, rebuilds the array with ceil(size/64) zero words (the
length its constructor establishes), while in the secondary revision it
rebuilds the array with its current length.  The clause that bits of the
other operand at indices at or beyond the receiver size have no effect
is dropped, as the counterexample shows it fails in the secondary
revision. -/
theorem c9_inplace_ops_preserve_dimensions
    (a o : V1.BitSet) (b p : V2.BitSet) (n : Int) (ids : List Int) :
    (V1.Set a n).1.size = a.size ∧
    (V1.Set a n).1.bitArray.length = a.bitArray.length ∧
    (V1.Clear a n).1.size = a.size ∧
    (V1.Clear a n).1.bitArray.length = a.bitArray.length ∧
    (V1.Flip a n).1.size = a.size ∧
    (V1.Flip a n).1.bitArray.length = a.bitArray.length ∧
    (V1.SetBits a ids).1.size = a.size ∧
    (V1.SetBits a ids).1.bitArray.length = a.bitArray.length ∧
    (V1.ClearBits a ids).1.size = a.size ∧
    (V1.ClearBits a ids).1.bitArray.length = a.bitArray.length ∧
    (V1.FlipBits a ids).1.size = a.size ∧
    (V1.FlipBits a ids).1.bitArray.length = a.bitArray.length ∧
    (V1.ClearAll a).size = a.size ∧
    (V1.ClearAll a).bitArray.length = ceilDiv64 a.size ∧
    (V1.Not a).size = a.size ∧
    (V1.Not a).bitArray.length = a.bitArray.length ∧
    (V1.Or a o).size = a.size ∧
    (V1.Or a o).bitArray.length = a.bitArray.length ∧
    (V1.And a o).size = a.size ∧
    (V1.And a o).bitArray.length = a.bitArray.length ∧
    (V2.Set b n).1.size = b.size ∧
    (V2.Set b n).1.words.length = b.words.length ∧
    (V2.Clear b n).1.size = b.size ∧
    (V2.Clear b n).1.words.length = b.words.length ∧
    (V2.Flip b n).1.size = b.size ∧
    (V2.Flip b n).1.words.length = b.words.length ∧
    (V2.SetBits b ids).1.size = b.size ∧
    (V2.SetBits b ids).1.words.length = b.words.length ∧
    (V2.ClearBits b ids).1.size = b.size ∧
    (V2.ClearBits b ids).1.words.length = b.words.length ∧
    (V2.FlipBits b ids).1.size = b.size ∧
    (V2.FlipBits b ids).1.words.length = b.words.length ∧
    (V2.ClearAll b).size = b.size ∧
    (V2.ClearAll b).words.length = b.words.length ∧
    (V2.Or b p).size = b.size ∧
    (V2.Or b p).words.length = b.words.length ∧
    (V2.And b p).size = b.size ∧
    (V2.And b p).words.length = b.words.length ∧
    (V2.Xor b p).size = b.size ∧
    (V2.Xor b p).words.length = b.words.length ∧
    (V2.Not b).size = b.size ∧
    (V2.Not b).words.length = b.words.length := by
  refine ⟨(V1.Set_dims a n).1, (V1.Set_dims a n).2,
    (V1.Clear_dims a n).1, (V1.Clear_dims a n).2,
    (V1.Flip_dims a n).1, (V1.Flip_dims a n).2,
    (V1.setBitsAux_dims ids ids a []).1, (V1.setBitsAux_dims ids ids a []).2,
    (V1.clearBitsAux_dims ids ids a []).1, (V1.clearBitsAux_dims ids ids a []).2,
    (V1.flipBitsAux_dims ids ids a).1, (V1.flipBitsAux_dims ids ids a).2,
    rfl, by simp [V1.ClearAll],
    rfl, by simp [V1.Not],
    rfl, ?_, rfl, ?_,
    (v2_Set_dims b n).1, (v2_Set_dims b n).2,
    (v2_Clear_dims b n).1, (v2_Clear_dims b n).2,
    (v2_Flip_dims b n).1, (v2_Flip_dims b n).2,
    (v2_setBitsAux_dims ids ids b []).1, (v2_setBitsAux_dims ids ids b []).2,
    (v2_clearBitsAux_dims ids ids b []).1, (v2_clearBitsAux_dims ids ids b []).2,
    (v2_flipBitsAux_dims ids ids b).1, (v2_flipBitsAux_dims ids ids b).2,
    rfl, by simp [V2.ClearAll],
    rfl, ?_, rfl, ?_, rfl, ?_, rfl, ?_⟩
  · simp [V1.Or, v1_orWalk_length]
  · simp [V1.And, v1_andWalk_length]
  · simp [V2.Or, v2_orWalk_length]
  · simp [V2.And, v2_andWalk_length]
  · simp [V2.Xor, v2_xorWalk_length]
  · simp [V2.Not, v2_notWalk_length]

/-- Claim C10. For every bitset produced by the constructor of either
revision and every index n below the size, the word index computed by
getWordAndPos lies within the bounds of the allocated word array; for the
reversed layout of the primary revision, n / 64 is also below the length,
so the subtracted index never underflows. -/
theorem c10_word_index_in_bounds (sz n : Nat) (h : n < sz) :
    n / 64 < (V1.NewBitSet sz).bitArray.length ∧
    (V1.getWordAndPos (V1.NewBitSet sz) n).1 < (V1.NewBitSet sz).bitArray.length ∧
    (V2.getWordAndPos n).1 < (V2.NewBitSet sz).words.length := by
  refine ⟨?_, ?_, ?_⟩ <;>
    simp [V1.NewBitSet, V1.getWordAndPos, V2.NewBitSet, V2.getWordAndPos,
      ceilDiv64] <;>
    omega

/-- Witness for claim C10, at size 65 and index 64. -/
theorem c10_witness :
    64 / 64 < (V1.NewBitSet 65).bitArray.length ∧
    (V1.getWordAndPos (V1.NewBitSet 65) 64).1 < (V1.NewBitSet 65).bitArray.length ∧
    (V2.getWordAndPos 64).1 < (V2.NewBitSet 65).words.length :=
  c10_word_index_in_bounds 65 64 (by decide)
